import Mathlib

/-!
Verification of the annotation-validation and sharding pipeline of
`src/data/create_tfrecords.py` (wing-loss repository).

The script converts images plus JSON box/landmark files into sharded
record files.  We embed its two cores:

* `dict_to_tf_example` — the validator/normalizer (lines 58–111 of the
  source): checks the filename extension, loads the image, checks the
  format/mode, checks declared vs decoded dimensions, normalizes the box
  by the declared width/height, and normalizes the landmarks emitting
  each pair in swapped `(y, x)` order.  Python `assert` failures and the
  file read are mapped onto the error taxonomy of the design document
  (`Err` below).  Pixel coordinates are embedded as rationals.

* `writeAll` / `runPipeline` — the main loop (lines 139–167): capacity
  `ceil(N/S)`, records written to the current shard in arrival order, a
  shard file named `shard-%04d.tfrecords` opened when its first record
  arrives and closed when it reaches capacity; the trailing partial
  shard closed after the loop.  Any validation failure propagates (the
  Python exception aborts the run), which the embedding reflects by
  returning the failure and discarding the rest of the stream.
-/

deriving instance DecidableEq for Except

namespace WingLoss

attribute [local semireducible] Rat.mul Rat.inv Rat.add Rat.sub

/-- Bounding box of an annotation, pixel units (JSON `box` object). -/
structure Box where
  xmin : ℚ
  ymin : ℚ
  xmax : ℚ
  ymax : ℚ
deriving DecidableEq, Repr

/-- Declared image size of an annotation (JSON `size` object, after the
`int()` casts of the source). -/
structure ImgSize where
  width : Int
  height : Int
  depth : Int
deriving DecidableEq, Repr

/-- One parsed JSON annotation file. -/
structure Anno where
  filename : String
  box : Box
  landmarks : List (ℚ × ℚ)
  size : ImgSize
deriving DecidableEq, Repr

/-- What `PIL.Image.open` exposes of an image file: its format, color
mode, decoded pixel size, and the raw encoded bytes that were read. -/
structure Image where
  format : String
  mode : String
  width : Int
  height : Int
  bytes : List UInt8
deriving DecidableEq, Repr

/-- Error taxonomy of the design document, mapped onto the failure sites
of the source: the image read is `ioErr`; the extension and dimension
asserts are `schemaErr`; the format/mode asserts are `formatErr`; the
box and landmark asserts are `geometryErr`. -/
inductive Err where
  | ioErr
  | schemaErr
  | formatErr
  | geometryErr
deriving DecidableEq, Repr

/-- The validated, normalized record serialized into a shard (the
`tf.train.Example` built at lines 103–110 of the source). -/
structure Record where
  image_bytes : List UInt8
  xmin : ℚ
  xmax : ℚ
  ymin : ℚ
  ymax : ℚ
  landmarks : List ℚ
deriving DecidableEq, Repr

/-- Python's `str.endswith`, with which the source checks the filename
extension; stated on the string's character list so that it evaluates. -/
def strEndsWith (s suff : String) : Bool :=
  List.isSuffixOf suff.data s.data

/-- The landmark loop of `dict_to_tf_example` (source lines 94–101):
each pair `(x, y)` is normalized by `x/width`, `y/height`, the asserts
`ymin ≤ y ≤ ymax` and `xmin ≤ x ≤ xmax` are checked, and the pair is
appended to the flat output in swapped `(y, x)` order. -/
def normLandmarks (w h ymin ymax xmin xmax : ℚ) :
    List (ℚ × ℚ) → Except Err (List ℚ)
  | [] => .ok []
  | (x, y) :: rest =>
    if y / h ≤ ymax ∧ y / h ≥ ymin then
      if x / w ≤ xmax ∧ x / w ≥ xmin then
        match normLandmarks w h ymin ymax xmin xmax rest with
        | .ok tail => .ok (y / h :: x / w :: tail)
        | .error e => .error e
      else .error .geometryErr
    else .error .geometryErr

/-- The validator/normalizer (source lines 58–111).  `image_dir` is the
image directory, embedded as a lookup from filename to the image stored
there (`none` = the file is missing and the read raises). -/
def dict_to_tf_example (anno : Anno) (image_dir : String → Option Image) :
    Except Err Record :=
  if strEndsWith anno.filename ".jpg" || strEndsWith anno.filename ".jpeg" then
    match image_dir anno.filename with
    | none => .error .ioErr
    | some image =>
      if image.format = "JPEG" ∧ image.mode = "RGB" then
        if 0 < anno.size.width ∧ 0 < anno.size.height then
          if image.width = anno.size.width ∧ image.height = anno.size.height then
            if anno.box.ymin / (anno.size.height : ℚ) < anno.box.ymax / (anno.size.height : ℚ) ∧
                anno.box.xmin / (anno.size.width : ℚ) < anno.box.xmax / (anno.size.width : ℚ) then
              match normLandmarks (anno.size.width : ℚ) (anno.size.height : ℚ)
                  (anno.box.ymin / (anno.size.height : ℚ)) (anno.box.ymax / (anno.size.height : ℚ))
                  (anno.box.xmin / (anno.size.width : ℚ)) (anno.box.xmax / (anno.size.width : ℚ))
                  anno.landmarks with
              | .ok lms =>
                .ok ⟨image.bytes,
                     anno.box.xmin / (anno.size.width : ℚ), anno.box.xmax / (anno.size.width : ℚ),
                     anno.box.ymin / (anno.size.height : ℚ), anno.box.ymax / (anno.size.height : ℚ),
                     lms⟩
              | .error e => .error e
            else .error .geometryErr
          else .error .schemaErr
        else .error .schemaErr
      else .error .formatErr
  else .error .schemaErr

/-- `shard_size = math.ceil(num_examples / num_shards)` (source line 140),
as a natural number: `(n + s - 1) / s` equals `⌈n / s⌉` for `s > 0`. -/
def shardCapacity (n s : Nat) : Nat :=
  (n + s - 1) / s

/-- Zero-padding of `'%04d' % shard_id`. -/
def pad4 (n : Nat) : String :=
  let s := toString n
  String.mk (List.replicate (4 - s.length) '0') ++ s

/-- `'shard-%04d.tfrecords' % shard_id` (source line 152). -/
def shardFileName (i : Nat) : String :=
  "shard-" ++ pad4 i ++ ".tfrecords"

/-- The writer loop of `main` (source lines 149–167).  State: the list
of not-yet-processed entries, the current `shard_id`, the records
written to the currently open shard (`num_examples_written` is its
length), and the closed shards so far as (filename, contents) pairs.
A validation failure propagates out as the Python exception does. -/
def writeAll (image_dir : String → Option Image) (cap : Nat) :
    List Anno → Nat → List Record → List (String × List Record) →
    Except Err (List (String × List Record))
  | [], shard_id, cur, acc =>
    .ok (if cur.length ≠ 0 then acc ++ [(shardFileName shard_id, cur)] else acc)
  | a :: rest, shard_id, cur, acc =>
    match dict_to_tf_example a image_dir with
    | .error e => .error e
    | .ok r =>
      if (cur ++ [r]).length = cap then
        writeAll image_dir cap rest (shard_id + 1) []
          (acc ++ [(shardFileName shard_id, cur ++ [r])])
      else
        writeAll image_dir cap rest shard_id (cur ++ [r]) acc

/-- The pipeline of `main` over an already-listed (and shuffled) stream
of annotation entries: capacity `ceil(N / num_shards)`, then the writer
loop starting with shard 0 and nothing written. -/
def runPipeline (image_dir : String → Option Image) (entries : List Anno)
    (num_shards : Nat) : Except Err (List (String × List Record)) :=
  writeAll image_dir (shardCapacity entries.length num_shards) entries 0 [] []

/-- `shutil.rmtree(output_dir, ignore_errors=True); os.mkdir(output_dir)`
(source lines 144–145) on the contents of the output directory: whatever
was there is removed and an empty directory remains. -/
def resetOutputDir (_prev : List String) : List String :=
  []

/-- A whole invocation as seen by the output directory: its previous
contents are destructively reset, then the pipeline's shard files are
created in it.  Returns the final directory contents on success. -/
def runFull (prev : List String) (image_dir : String → Option Image)
    (entries : List Anno) (num_shards : Nat) : Except Err (List String) :=
  Except.map (fun shards => resetOutputDir prev ++ shards.map Prod.fst)
    (runPipeline image_dir entries num_shards)

/-- The records the validator yields on a stream, in arrival order. -/
def okRecords (image_dir : String → Option Image) (entries : List Anno) :
    List Record :=
  entries.filterMap fun a => (dict_to_tf_example a image_dir).toOption

/-! ### Concrete fixtures (the spec's concrete scenarios) -/

/-- A 400×500 RGB JPEG image stored as `1.jpg`. -/
def img0 : Image :=
  ⟨"JPEG", "RGB", 400, 500, [1, 2, 3]⟩

/-- Image directory holding exactly `1.jpg`. -/
def imgDir0 : String → Option Image :=
  fun name => if name = "1.jpg" then some img0 else none

/-- The spec's concrete annotation: box (100,50)–(300,250) in a 400×500
image with the five landmarks of the scenario. -/
def anno0 : Anno :=
  ⟨"1.jpg", ⟨100, 50, 300, 250⟩,
   [(150, 100), (250, 100), (200, 150), (160, 200), (240, 200)],
   ⟨400, 500, 3⟩⟩

/-- The record `anno0` validates to. -/
def rec0 : Record :=
  ⟨img0.bytes, 1/4, 3/4, 1/10, 1/2,
   [1/5, 3/8, 1/5, 5/8, 3/10, 1/2, 2/5, 2/5, 2/5, 3/5]⟩

/-! ### Lemmas about the landmark loop -/

/-- The landmark asserts of source lines 97–98, as a predicate on one
input pair `(x, y)`. -/
abbrev lmOk (w h ymin ymax xmin xmax : ℚ) (p : ℚ × ℚ) : Prop :=
  p.2 / h ≤ ymax ∧ p.2 / h ≥ ymin ∧ p.1 / w ≤ xmax ∧ p.1 / w ≥ xmin

/-- The flat output of the landmark loop: each pair divided by
width/height and emitted in swapped `(y, x)` order. -/
def lmFlat (w h : ℚ) (l : List (ℚ × ℚ)) : List ℚ :=
  l.flatMap fun p => [p.2 / h, p.1 / w]

theorem normLandmarks_ok_flat {w h ymin ymax xmin xmax : ℚ}
    {l : List (ℚ × ℚ)} {out : List ℚ}
    (hok : normLandmarks w h ymin ymax xmin xmax l = .ok out) :
    out = lmFlat w h l := by
  induction l generalizing out with
  | nil => simp only [normLandmarks] at hok; cases hok; rfl
  | cons p rest ih =>
    obtain ⟨x, y⟩ := p
    simp only [normLandmarks] at hok
    split at hok
    · split at hok
      · cases hrec : normLandmarks w h ymin ymax xmin xmax rest with
        | ok tail =>
          rw [hrec] at hok
          cases hok
          simp [lmFlat, ih hrec]
        | error e => rw [hrec] at hok; cases hok
      · cases hok
    · cases hok

theorem normLandmarks_ok_bounds {w h ymin ymax xmin xmax : ℚ}
    {l : List (ℚ × ℚ)} {out : List ℚ}
    (hok : normLandmarks w h ymin ymax xmin xmax l = .ok out) :
    ∀ p ∈ l, lmOk w h ymin ymax xmin xmax p := by
  induction l generalizing out with
  | nil => intro p hp; cases hp
  | cons q rest ih =>
    obtain ⟨x, y⟩ := q
    simp only [normLandmarks] at hok
    split at hok
    · split at hok
      · cases hrec : normLandmarks w h ymin ymax xmin xmax rest with
        | ok tail =>
          intro p hp
          rcases List.mem_cons.1 hp with rfl | hmem
          · exact ⟨by tauto, by tauto, by tauto, by tauto⟩
          · exact ih hrec p hmem
        | error e => rw [hrec] at hok; cases hok
      · cases hok
    · cases hok

theorem normLandmarks_all_ok {w h ymin ymax xmin xmax : ℚ}
    {l : List (ℚ × ℚ)}
    (hall : ∀ p ∈ l, lmOk w h ymin ymax xmin xmax p) :
    normLandmarks w h ymin ymax xmin xmax l = .ok (lmFlat w h l) := by
  induction l with
  | nil => rfl
  | cons q rest ih =>
    obtain ⟨x, y⟩ := q
    obtain ⟨h1, h2, h3, h4⟩ := hall (x, y) (List.mem_cons_self _ _)
    simp only [normLandmarks]
    rw [if_pos ⟨h1, h2⟩, if_pos ⟨h3, h4⟩, ih fun p hp => hall p (List.mem_cons_of_mem _ hp)]
    rfl

theorem normLandmarks_not_ok {w h ymin ymax xmin xmax : ℚ}
    {l : List (ℚ × ℚ)}
    (hbad : ¬ ∀ p ∈ l, lmOk w h ymin ymax xmin xmax p) :
    normLandmarks w h ymin ymax xmin xmax l = .error .geometryErr := by
  induction l with
  | nil => exact absurd (by intro p hp; cases hp) hbad
  | cons q rest ih =>
    obtain ⟨x, y⟩ := q
    simp only [normLandmarks]
    split
    case isFalse => rfl
    case isTrue hy =>
      split
      case isFalse => rfl
      case isTrue hx =>
        have hrest : ¬ ∀ p ∈ rest, lmOk w h ymin ymax xmin xmax p := by
          intro hall
          exact hbad fun p hp => by
            rcases List.mem_cons.1 hp with rfl | hmem
            · exact ⟨hy.1, hy.2, hx.1, hx.2⟩
            · exact hall p hmem
        rw [ih hrest]

/-! ### Lemmas about the validator -/

/-- Normalized box edges of an annotation, as the source computes them
(x divided by declared width, y by declared height). -/
def normBox (anno : Anno) : Box :=
  ⟨anno.box.xmin / (anno.size.width : ℚ), anno.box.ymin / (anno.size.height : ℚ),
   anno.box.xmax / (anno.size.width : ℚ), anno.box.ymax / (anno.size.height : ℚ)⟩

/-- Everything that must have held when the validator accepted. -/
theorem dict_ok_inv {anno : Anno} {image_dir : String → Option Image} {r : Record}
    (h : dict_to_tf_example anno image_dir = .ok r) :
    ∃ image, image_dir anno.filename = some image ∧
      (strEndsWith anno.filename ".jpg" || strEndsWith anno.filename ".jpeg") = true ∧
      image.format = "JPEG" ∧ image.mode = "RGB" ∧
      0 < anno.size.width ∧ 0 < anno.size.height ∧
      image.width = anno.size.width ∧ image.height = anno.size.height ∧
      r.image_bytes = image.bytes ∧
      r.xmin = (normBox anno).xmin ∧ r.xmax = (normBox anno).xmax ∧
      r.ymin = (normBox anno).ymin ∧ r.ymax = (normBox anno).ymax ∧
      r.ymin < r.ymax ∧ r.xmin < r.xmax ∧
      normLandmarks (anno.size.width : ℚ) (anno.size.height : ℚ)
        (normBox anno).ymin (normBox anno).ymax (normBox anno).xmin (normBox anno).xmax
        anno.landmarks = .ok r.landmarks := by
  unfold dict_to_tf_example at h
  split at h
  case isFalse => cases h
  case isTrue hext =>
    split at h
    next himg => cases h
    next image himg =>
      split at h
      case isFalse => cases h
      case isTrue hfmt =>
        split at h
        case isFalse => cases h
        case isTrue hpos =>
          split at h
          case isFalse => cases h
          case isTrue hdim =>
            split at h
            case isFalse => cases h
            case isTrue hbox =>
              cases hlm : normLandmarks (anno.size.width : ℚ) (anno.size.height : ℚ)
                  (anno.box.ymin / (anno.size.height : ℚ)) (anno.box.ymax / (anno.size.height : ℚ))
                  (anno.box.xmin / (anno.size.width : ℚ)) (anno.box.xmax / (anno.size.width : ℚ))
                  anno.landmarks with
              | ok lms =>
                rw [hlm] at h
                cases h
                exact ⟨image, himg, by simpa using hext, hfmt.1, hfmt.2, hpos.1, hpos.2,
                  hdim.1, hdim.2, rfl, rfl, rfl, rfl, rfl, hbox.1, hbox.2, hlm⟩
              | error e => rw [hlm] at h; cases h

/-- The validator accepts when every check passes, and produces exactly
the untouched bytes, the normalized box, and the flattened swapped
landmark list. -/
theorem dict_ok_of_checks {anno : Anno} {image_dir : String → Option Image} {image : Image}
    (hext : (strEndsWith anno.filename ".jpg" || strEndsWith anno.filename ".jpeg") = true)
    (himg : image_dir anno.filename = some image)
    (hfmt : image.format = "JPEG") (hmode : image.mode = "RGB")
    (hw : 0 < anno.size.width) (hh : 0 < anno.size.height)
    (hdw : image.width = anno.size.width) (hdh : image.height = anno.size.height)
    (hbox : (normBox anno).ymin < (normBox anno).ymax ∧ (normBox anno).xmin < (normBox anno).xmax)
    (hlm : ∀ p ∈ anno.landmarks,
      lmOk (anno.size.width : ℚ) (anno.size.height : ℚ)
        (normBox anno).ymin (normBox anno).ymax (normBox anno).xmin (normBox anno).xmax p) :
    dict_to_tf_example anno image_dir =
      .ok ⟨image.bytes, (normBox anno).xmin, (normBox anno).xmax,
           (normBox anno).ymin, (normBox anno).ymax,
           lmFlat (anno.size.width : ℚ) (anno.size.height : ℚ) anno.landmarks⟩ := by
  simp only [normBox] at hbox hlm ⊢
  unfold dict_to_tf_example
  rw [if_pos hext]
  simp only [himg]
  rw [if_pos ⟨hfmt, hmode⟩, if_pos ⟨hw, hh⟩, if_pos ⟨hdw, hdh⟩, if_pos hbox,
    normLandmarks_all_ok hlm]

/-- A well-formed filename whose image file is missing fails the read:
the `IOError` site of the source (line 75). -/
theorem dict_missing_image {anno : Anno} {image_dir : String → Option Image}
    (hext : (strEndsWith anno.filename ".jpg" || strEndsWith anno.filename ".jpeg") = true)
    (himg : image_dir anno.filename = none) :
    dict_to_tf_example anno image_dir = .error .ioErr := by
  unfold dict_to_tf_example
  rw [if_pos hext]
  simp only [himg]

/-- When every check before the box assert passes but the normalized box
is degenerate or inverted, the validator fails at the geometry assert of
source line 92. -/
theorem dict_bad_box {anno : Anno} {image_dir : String → Option Image} {image : Image}
    (hext : (strEndsWith anno.filename ".jpg" || strEndsWith anno.filename ".jpeg") = true)
    (himg : image_dir anno.filename = some image)
    (hfmt : image.format = "JPEG") (hmode : image.mode = "RGB")
    (hw : 0 < anno.size.width) (hh : 0 < anno.size.height)
    (hdw : image.width = anno.size.width) (hdh : image.height = anno.size.height)
    (hbox : ¬ ((normBox anno).ymin < (normBox anno).ymax ∧ (normBox anno).xmin < (normBox anno).xmax)) :
    dict_to_tf_example anno image_dir = .error .geometryErr := by
  simp only [normBox] at hbox
  unfold dict_to_tf_example
  rw [if_pos hext]
  simp only [himg]
  rw [if_pos ⟨hfmt, hmode⟩, if_pos ⟨hw, hh⟩, if_pos ⟨hdw, hdh⟩, if_neg hbox]

/-! ### Arithmetic of the shard capacity -/

theorem shardCapacity_pos {n s : Nat} (hn : 1 ≤ n) (hs : 1 ≤ s) :
    0 < shardCapacity n s :=
  Nat.div_pos (by omega) hs

theorem shardCapacity_mul_bounds (n s : Nat) (hs : 0 < s) :
    n ≤ s * shardCapacity n s ∧ s * shardCapacity n s < n + s := by
  unfold shardCapacity
  have h1 := Nat.div_add_mod (n + s - 1) s
  have h2 := Nat.mod_lt (n + s - 1) hs
  generalize hq : (n + s - 1) / s = q at h1 ⊢
  generalize hr : (n + s - 1) % s = r at h1 h2
  generalize hm : s * q = m at h1 ⊢
  omega

/-- `(n + s - 1) / s` is the mathematical ceiling of `n / s`, so the
embedded `shardCapacity` is `math.ceil(num_examples/num_shards)` of the
source. -/
theorem shardCapacity_eq_ceil (n s : Nat) (hs : 0 < s) :
    (shardCapacity n s : ℤ) = ⌈(n : ℚ) / (s : ℚ)⌉ := by
  obtain ⟨hA, hB⟩ := shardCapacity_mul_bounds n s hs
  have hs' : (0 : ℚ) < (s : ℚ) := by exact_mod_cast hs
  rw [eq_comm, Int.ceil_eq_iff]
  constructor
  · rw [lt_div_iff hs']
    have hB' : (s : ℚ) * (shardCapacity n s : ℚ) < (n : ℚ) + (s : ℚ) := by exact_mod_cast hB
    push_cast
    nlinarith
  · rw [div_le_iff hs']
    have hA' : (n : ℚ) ≤ (s : ℚ) * (shardCapacity n s : ℚ) := by exact_mod_cast hA
    push_cast
    nlinarith

theorem shardCapacity_self_le {n s : Nat} (hn : 1 ≤ n) (hs : 1 ≤ s) :
    shardCapacity n (shardCapacity n s) ≤ s := by
  have hcap := shardCapacity_pos hn hs
  have hA := (shardCapacity_mul_bounds n s hs).1
  show (n + shardCapacity n s - 1) / shardCapacity n s ≤ s
  rw [Nat.div_le_iff_le_mul_add_pred hcap, Nat.mul_comm]
  generalize hm : s * shardCapacity n s = m at hA ⊢
  omega

/-! ### Lemmas about the writer loop -/

theorem writeAll_sum {image_dir : String → Option Image} {cap : Nat}
    {l : List Anno} {shard_id : Nat} {cur : List Record}
    {acc shards : List (String × List Record)}
    (h : writeAll image_dir cap l shard_id cur acc = .ok shards) :
    (shards.map fun s => s.2.length).sum =
      (acc.map fun s => s.2.length).sum + cur.length + l.length := by
  induction l generalizing shard_id cur acc shards with
  | nil =>
    simp only [writeAll] at h
    injection h with h
    subst h
    by_cases hc : cur.length ≠ 0 <;>
      simp_all [List.map_append, List.sum_append]
  | cons a rest ih =>
    simp only [writeAll] at h
    split at h
    next e hd => cases h
    next r hd =>
      split at h
      next hfull =>
        have ih' := ih h
        simp only [List.map_append, List.sum_append, List.map_cons, List.map_nil,
          List.sum_cons, List.sum_nil, List.length_append, List.length_cons,
          List.length_nil] at ih' ⊢
        omega
      next hnot =>
        have ih' := ih h
        simp only [List.length_append, List.length_cons, List.length_nil] at ih' ⊢
        omega

theorem writeAll_le_cap {image_dir : String → Option Image} {cap : Nat}
    {l : List Anno} {shard_id : Nat} {cur : List Record}
    {acc shards : List (String × List Record)}
    (h : writeAll image_dir cap l shard_id cur acc = .ok shards)
    (hcur : cur.length < cap)
    (hacc : ∀ s ∈ acc, s.2.length ≤ cap) :
    ∀ s ∈ shards, s.2.length ≤ cap := by
  induction l generalizing shard_id cur acc shards with
  | nil =>
    simp only [writeAll] at h
    injection h with h
    subst h
    intro s hs
    by_cases hc : cur.length ≠ 0
    · rw [if_pos hc] at hs
      rcases List.mem_append.1 hs with hs | hs
      · exact hacc s hs
      · simp at hs
        rw [hs]
        exact hcur.le
    · rw [if_neg hc] at hs
      exact hacc s hs
  | cons a rest ih =>
    simp only [writeAll] at h
    split at h
    next e hd => cases h
    next r hd =>
      split at h
      next hfull =>
        refine ih h (by simp at hfull ⊢; omega) ?_
        intro s hs
        rcases List.mem_append.1 hs with hs | hs
        · exact hacc s hs
        · simp only [List.mem_singleton] at hs
          subst hs
          exact Nat.le_of_eq hfull
      next hnot =>
        refine ih h ?_ hacc
        simp only [List.length_append, List.length_cons, List.length_nil] at hnot ⊢
        omega

theorem writeAll_dropLast {image_dir : String → Option Image} {cap : Nat}
    {l : List Anno} {shard_id : Nat} {cur : List Record}
    {acc shards : List (String × List Record)}
    (h : writeAll image_dir cap l shard_id cur acc = .ok shards)
    (hcur : cur.length < cap)
    (hacc : ∀ s ∈ acc, s.2.length = cap) :
    ∀ s ∈ shards.dropLast, s.2.length = cap := by
  induction l generalizing shard_id cur acc shards with
  | nil =>
    simp only [writeAll] at h
    injection h with h
    subst h
    intro s hs
    by_cases hc : cur.length ≠ 0
    · rw [if_pos hc, List.dropLast_concat] at hs
      exact hacc s hs
    · rw [if_neg hc] at hs
      exact hacc s ((List.dropLast_sublist _).subset hs)
  | cons a rest ih =>
    simp only [writeAll] at h
    split at h
    next e hd => cases h
    next r hd =>
      split at h
      next hfull =>
        refine ih h (by simp at hfull ⊢; omega) ?_
        intro s hs
        rcases List.mem_append.1 hs with hs | hs
        · exact hacc s hs
        · simp only [List.mem_singleton] at hs
          subst hs
          exact hfull
      next hnot =>
        refine ih h ?_ hacc
        simp only [List.length_append, List.length_cons, List.length_nil] at hnot ⊢
        omega

theorem writeAll_flatten {image_dir : String → Option Image} {cap : Nat}
    {l : List Anno} {shard_id : Nat} {cur : List Record}
    {acc shards : List (String × List Record)}
    (h : writeAll image_dir cap l shard_id cur acc = .ok shards) :
    shards.flatMap (fun s => s.2) =
      acc.flatMap (fun s => s.2) ++ cur ++ okRecords image_dir l := by
  induction l generalizing shard_id cur acc shards with
  | nil =>
    simp only [writeAll] at h
    injection h with h
    subst h
    by_cases hc : cur.length ≠ 0 <;>
      simp_all [okRecords, List.flatMap_append]
  | cons a rest ih =>
    simp only [writeAll] at h
    split at h
    next e hd => cases h
    next r hd =>
      have hfm : okRecords image_dir (a :: rest) = r :: okRecords image_dir rest := by
        simp [okRecords, List.filterMap_cons, hd, Except.toOption]
      split at h
      next hfull =>
        have ih' := ih h
        rw [hfm]
        simp only [List.flatMap_append, List.flatMap_cons, List.flatMap_nil,
          List.append_nil] at ih'
        rw [ih']
        simp
      next hnot =>
        have ih' := ih h
        rw [hfm, ih']
        simp

theorem writeAll_length {image_dir : String → Option Image} {cap : Nat}
    {l : List Anno} {shard_id : Nat} {cur : List Record}
    {acc shards : List (String × List Record)}
    (h : writeAll image_dir cap l shard_id cur acc = .ok shards)
    (hcap : 0 < cap) (hcur : cur.length < cap) :
    shards.length = acc.length + (cur.length + l.length + cap - 1) / cap := by
  induction l generalizing shard_id cur acc shards with
  | nil =>
    simp only [writeAll] at h
    injection h with h
    subst h
    by_cases hc : cur.length ≠ 0
    · rw [if_pos hc]
      simp only [List.length_append, List.length_cons, List.length_nil]
      have he : cur.length + 0 + cap - 1 = (cur.length - 1) + cap := by omega
      rw [he, Nat.add_div_right _ hcap, Nat.div_eq_of_lt (by omega)]
    · rw [if_neg hc]
      push_neg at hc
      simp only [List.length_nil, hc]
      rw [Nat.div_eq_of_lt (by omega)]
      omega
  | cons a rest ih =>
    simp only [writeAll] at h
    split at h
    next e hd => cases h
    next r hd =>
      split at h
      next hfull =>
        simp only [List.length_append, List.length_cons, List.length_nil] at hfull
        have ih' := ih h (by simpa using hcap)
        simp only [List.length_append, List.length_cons, List.length_nil] at ih' ⊢
        rw [ih']
        have he : cur.length + (rest.length + 1) + cap - 1 =
            (0 + rest.length + cap - 1) + cap := by omega
        rw [he, Nat.add_div_right _ hcap]
        generalize (0 + List.length rest + cap - 1) / cap = q
        ring
      next hnot =>
        have ih' := ih h (by simp at hnot ⊢; omega)
        rw [ih']
        have he : (cur ++ [r]).length + rest.length + cap - 1 =
            cur.length + (a :: rest).length + cap - 1 := by
          simp
          omega
        rw [he]

theorem writeAll_names {image_dir : String → Option Image} {cap : Nat}
    {l : List Anno} {shard_id : Nat} {cur : List Record}
    {acc shards : List (String × List Record)}
    (h : writeAll image_dir cap l shard_id cur acc = .ok shards) :
    ∃ m, shards.map Prod.fst =
      acc.map Prod.fst ++ (List.range' shard_id m).map shardFileName := by
  induction l generalizing shard_id cur acc shards with
  | nil =>
    simp only [writeAll] at h
    injection h with h
    subst h
    by_cases hc : cur.length ≠ 0
    · exact ⟨1, by simp [hc, List.range'_one]⟩
    · exact ⟨0, by simp [hc]⟩
  | cons a rest ih =>
    simp only [writeAll] at h
    split at h
    next e hd => cases h
    next r hd =>
      split at h
      next hfull =>
        obtain ⟨m, hm⟩ := ih h
        refine ⟨m + 1, ?_⟩
        rw [hm]
        simp [List.range'_succ]
      next hnot =>
        exact ih h

/-- Fail-fast: the first failing entry aborts the run with its error, no
matter what comes after it in the stream. -/
theorem writeAll_fail_fast {image_dir : String → Option Image} {cap : Nat}
    {pre : List Anno} {a : Anno} {post : List Anno} {err : Err}
    {shard_id : Nat} {cur : List Record} {acc : List (String × List Record)}
    (hpre : ∀ b ∈ pre, ∃ r, dict_to_tf_example b image_dir = .ok r)
    (ha : dict_to_tf_example a image_dir = .error err) :
    writeAll image_dir cap (pre ++ a :: post) shard_id cur acc = .error err := by
  induction pre generalizing shard_id cur acc with
  | nil => simp only [List.nil_append, writeAll, ha]
  | cons b rest ih =>
    obtain ⟨r, hr⟩ := hpre b (List.mem_cons_self _ _)
    simp only [List.cons_append, writeAll, hr]
    split
    · exact ih fun c hc => hpre c (List.mem_cons_of_mem _ hc)
    · exact ih fun c hc => hpre c (List.mem_cons_of_mem _ hc)

/-! ### More fixtures for witnesses and counterexamples -/

/-- Ten identical entries, the spec's `N = 10` scenario. -/
def entries10 : List Anno :=
  List.replicate 10 anno0

/-- The shards the N=10, S=3 run produces: sizes 4, 4, 2. -/
def shards10 : List (String × List Record) :=
  [(shardFileName 0, List.replicate 4 rec0),
   (shardFileName 1, List.replicate 4 rec0),
   (shardFileName 2, List.replicate 2 rec0)]

/-- Six identical entries (used for the N=6, S=4 shard-count run). -/
def entries6 : List Anno :=
  List.replicate 6 anno0

/-- The shards the N=6, S=4 run produces: three shards of 2, not four. -/
def shards6 : List (String × List Record) :=
  [(shardFileName 0, List.replicate 2 rec0),
   (shardFileName 1, List.replicate 2 rec0),
   (shardFileName 2, List.replicate 2 rec0)]

/-- Annotation whose box extends past the image on all four sides; every
per-record check of the source still passes on it. -/
def anno4 : Anno :=
  ⟨"1.jpg", ⟨-100, -100, 800, 1000⟩,
   [(0, 0), (0, 0), (0, 0), (0, 0), (0, 0)], ⟨400, 500, 3⟩⟩

/-- The record `anno4` validates to: coordinates far outside `[0,1]`. -/
def rec4 : Record :=
  ⟨img0.bytes, -1/4, 2, -1/5, 2, [0, 0, 0, 0, 0, 0, 0, 0, 0, 0]⟩

/-- Annotation with an inverted box (`xmin > xmax` in pixels). -/
def annoInv : Anno :=
  ⟨"1.jpg", ⟨300, 50, 100, 250⟩, [], ⟨400, 500, 3⟩⟩

/-- Annotation naming an image file that is not in the directory. -/
def annoMiss : Anno :=
  ⟨"2.jpg", ⟨100, 50, 300, 250⟩, [], ⟨400, 500, 3⟩⟩

/-- Annotation with a degenerate box (`xmin = xmax`). -/
def annoDeg : Anno :=
  ⟨"1.jpg", ⟨100, 50, 100, 250⟩, [], ⟨400, 500, 3⟩⟩

/-- Annotation with one landmark outside the box. -/
def annoBadLm : Anno :=
  ⟨"1.jpg", ⟨100, 50, 300, 250⟩, [(0, 0)], ⟨400, 500, 3⟩⟩

/-- Annotation with only three landmark pairs, all inside the box. -/
def anno3 : Anno :=
  ⟨"1.jpg", ⟨100, 50, 300, 250⟩,
   [(150, 100), (250, 100), (200, 150)], ⟨400, 500, 3⟩⟩

/-- An image directory that differs from `imgDir0` everywhere except at
`1.jpg`. -/
def imgDirAlt : String → Option Image :=
  fun name => if name = "1.jpg" then some img0 else some ⟨"PNG", "P", 1, 1, []⟩

theorem lmFlat_length (w h : ℚ) (l : List (ℚ × ℚ)) :
    (lmFlat w h l).length = 2 * l.length := by
  induction l with
  | nil => rfl
  | cons p rest ih =>
    simp only [lmFlat, List.flatMap_cons, List.length_append, List.length_cons,
      List.length_nil, List.length_cons] at ih ⊢
    omega

/-! ### Claim theorems -/

/-- Claim C1: on every successful run over `N ≥ 1` entries with `S ≥ 1`
requested shards, the per-shard capacity is `ceil(N/S)`; the sum of
shard sizes is exactly `N`; every shard holds at most the capacity;
every shard before the last is exactly at capacity; and the records
appear in the shards in arrival order (concatenating the shards in
order recovers the validated record stream). -/
theorem sharding_policy {image_dir : String → Option Image} {entries : List Anno}
    {num_shards : Nat} {shards : List (String × List Record)}
    (hS : 1 ≤ num_shards) (hN : 1 ≤ entries.length)
    (h : runPipeline image_dir entries num_shards = .ok shards) :
    (shardCapacity entries.length num_shards : ℤ) =
      ⌈(entries.length : ℚ) / (num_shards : ℚ)⌉ ∧
    (shards.map fun s => s.2.length).sum = entries.length ∧
    (∀ s ∈ shards, s.2.length ≤ shardCapacity entries.length num_shards) ∧
    (∀ s ∈ shards.dropLast, s.2.length = shardCapacity entries.length num_shards) ∧
    shards.flatMap (fun s => s.2) = okRecords image_dir entries := by
  have hcap := shardCapacity_pos hN hS
  unfold runPipeline at h
  refine ⟨shardCapacity_eq_ceil _ _ hS, ?_, ?_, ?_, ?_⟩
  · have := writeAll_sum h
    simpa using this
  · exact writeAll_le_cap h (by simpa using hcap) (by simp)
  · exact writeAll_dropLast h (by simpa using hcap) (by simp)
  · have := writeAll_flatten h
    simpa using this

set_option maxRecDepth 8000 in
/-- Witness for C1 at the spec's concrete scenario: ten entries, three
shards, shard sizes `[4, 4, 2]`. -/
theorem sharding_policy_witness :
    (1 ≤ 3 ∧ 1 ≤ entries10.length ∧ runPipeline imgDir0 entries10 3 = .ok shards10) ∧
    ((shardCapacity entries10.length 3 : ℤ) = ⌈(entries10.length : ℚ) / (3 : ℚ)⌉ ∧
     (shards10.map fun s => s.2.length).sum = entries10.length ∧
     (∀ s ∈ shards10, s.2.length ≤ shardCapacity entries10.length 3) ∧
     (∀ s ∈ shards10.dropLast, s.2.length = shardCapacity entries10.length 3) ∧
     shards10.flatMap (fun s => s.2) = okRecords imgDir0 entries10) ∧
    shards10.map (fun s => s.2.length) = [4, 4, 2] := by
  have h : runPipeline imgDir0 entries10 3 = .ok shards10 := by decide
  exact ⟨⟨by decide, by decide, h⟩, sharding_policy (by decide) (by decide) h, by decide⟩

/-- Claim C2: whenever the validator accepts, the record's box fields
are the annotation's pixel box divided by the declared width (x) and
height (y), and they satisfy the strict inequalities; whenever all
checks before the box assert pass but the normalized box is not
strictly ordered, the validator fails with the geometry error; and the
spec's concrete annotation normalizes to 1/4, 3/4, 1/10, 1/2. -/
theorem box_normalization :
    (∀ (anno : Anno) (image_dir : String → Option Image) (r : Record),
      dict_to_tf_example anno image_dir = .ok r →
      r.xmin = anno.box.xmin / (anno.size.width : ℚ) ∧
      r.xmax = anno.box.xmax / (anno.size.width : ℚ) ∧
      r.ymin = anno.box.ymin / (anno.size.height : ℚ) ∧
      r.ymax = anno.box.ymax / (anno.size.height : ℚ) ∧
      r.xmin < r.xmax ∧ r.ymin < r.ymax) ∧
    (∀ (anno : Anno) (image_dir : String → Option Image) (image : Image),
      (strEndsWith anno.filename ".jpg" || strEndsWith anno.filename ".jpeg") = true →
      image_dir anno.filename = some image →
      image.format = "JPEG" → image.mode = "RGB" →
      0 < anno.size.width → 0 < anno.size.height →
      image.width = anno.size.width → image.height = anno.size.height →
      ¬ (anno.box.ymin / (anno.size.height : ℚ) < anno.box.ymax / (anno.size.height : ℚ) ∧
         anno.box.xmin / (anno.size.width : ℚ) < anno.box.xmax / (anno.size.width : ℚ)) →
      dict_to_tf_example anno image_dir = .error .geometryErr) ∧
    (dict_to_tf_example anno0 imgDir0 = .ok rec0 ∧
     rec0.xmin = 1/4 ∧ rec0.xmax = 3/4 ∧ rec0.ymin = 1/10 ∧ rec0.ymax = 1/2) := by
  refine ⟨?_, ?_, by decide, by decide, by decide, by decide, by decide⟩
  · intro anno image_dir r h
    obtain ⟨image, _, _, _, _, _, _, _, _, _, hxmin, hxmax, hymin, hymax, hyy, hxx, _⟩ :=
      dict_ok_inv h
    simp only [normBox] at hxmin hxmax hymin hymax
    exact ⟨hxmin, hxmax, hymin, hymax, hxx, hyy⟩
  · intro anno image_dir image hext himg hfmt hmode hw hh hdw hdh hbox
    refine dict_bad_box hext himg hfmt hmode hw hh hdw hdh ?_
    simpa [normBox] using hbox

/-- Witness for C2: applies the acceptance direction at the spec's
concrete annotation and the failure direction at a degenerate box. -/
theorem box_normalization_witness :
    (rec0.xmin = anno0.box.xmin / (anno0.size.width : ℚ) ∧
     rec0.xmax = anno0.box.xmax / (anno0.size.width : ℚ) ∧
     rec0.ymin = anno0.box.ymin / (anno0.size.height : ℚ) ∧
     rec0.ymax = anno0.box.ymax / (anno0.size.height : ℚ) ∧
     rec0.xmin < rec0.xmax ∧ rec0.ymin < rec0.ymax) ∧
    dict_to_tf_example annoDeg imgDir0 = .error .geometryErr :=
  ⟨box_normalization.1 anno0 imgDir0 rec0 (by decide),
   box_normalization.2.1 annoDeg imgDir0 img0 (by decide) (by decide) (by decide)
     (by decide) (by decide) (by decide) (by decide) (by decide) (by decide)⟩

/-- Claim C3: whenever the validator accepts, the record's flat landmark
sequence is exactly the input pairs divided by width (x) and height (y)
and emitted in swapped `(y, x)` order, and each normalized landmark lies
within the normalized box inclusively; an annotation with any landmark
outside the box is never accepted. -/
theorem landmark_normalization :
    (∀ (anno : Anno) (image_dir : String → Option Image) (r : Record),
      dict_to_tf_example anno image_dir = .ok r →
      r.landmarks = lmFlat (anno.size.width : ℚ) (anno.size.height : ℚ) anno.landmarks ∧
      ∀ p ∈ anno.landmarks,
        r.ymin ≤ p.2 / (anno.size.height : ℚ) ∧ p.2 / (anno.size.height : ℚ) ≤ r.ymax ∧
        r.xmin ≤ p.1 / (anno.size.width : ℚ) ∧ p.1 / (anno.size.width : ℚ) ≤ r.xmax) ∧
    (∀ (anno : Anno) (image_dir : String → Option Image),
      (∃ p ∈ anno.landmarks,
        ¬ lmOk (anno.size.width : ℚ) (anno.size.height : ℚ)
            (normBox anno).ymin (normBox anno).ymax (normBox anno).xmin (normBox anno).xmax p) →
      (dict_to_tf_example anno image_dir).toOption = none) := by
  constructor
  · intro anno image_dir r h
    obtain ⟨image, _, _, _, _, _, _, _, _, _, hxmin, hxmax, hymin, hymax, _, _, hlm⟩ :=
      dict_ok_inv h
    refine ⟨normLandmarks_ok_flat hlm, ?_⟩
    intro p hp
    obtain ⟨h1, h2, h3, h4⟩ := normLandmarks_ok_bounds hlm p hp
    rw [hxmin, hxmax, hymin, hymax]
    exact ⟨h2, h1, h4, h3⟩
  · intro anno image_dir hbad
    cases hres : dict_to_tf_example anno image_dir with
    | error e => rfl
    | ok r =>
      exfalso
      obtain ⟨p, hp, hnot⟩ := hbad
      obtain ⟨image, _, _, _, _, _, _, _, _, _, _, _, _, _, _, _, hlm⟩ := dict_ok_inv hres
      exact hnot (normLandmarks_ok_bounds hlm p hp)

/-- Witness for C3: the flat swapped output at the concrete annotation,
and rejection of an annotation whose landmark lies outside the box. -/
theorem landmark_normalization_witness :
    rec0.landmarks = lmFlat (anno0.size.width : ℚ) (anno0.size.height : ℚ) anno0.landmarks ∧
    (dict_to_tf_example annoBadLm imgDir0).toOption = none :=
  ⟨(landmark_normalization.1 anno0 imgDir0 rec0 (by decide)).1,
   landmark_normalization.2 annoBadLm imgDir0 ⟨(0, 0), by decide, by decide⟩⟩

/-- Claim C4 (counterexample): an accepted record need not lie in the
normalized unit square.  `anno4` passes every check of the validator,
yet its record has `xmin = -1/4 < 0`, `xmax = 2 > 1`, `ymin = -1/5 < 0`
and `ymax = 2 > 1` — the source never compares the box against the
image bounds. -/
theorem box_unit_square_cex :
    dict_to_tf_example anno4 imgDir0 = .ok rec4 ∧
    ¬ ((0 : ℚ) ≤ rec4.xmin ∧ rec4.xmin < rec4.xmax ∧ rec4.xmax ≤ 1 ∧
       (0 : ℚ) ≤ rec4.ymin ∧ rec4.ymin < rec4.ymax ∧ rec4.ymax ≤ 1) := by
  constructor <;> decide

/-- Claim C4 (amended): every accepted record satisfies the strict
orderings `xmin < xmax` and `ymin < ymax`, but no containment in the
unit square is enforced. -/
theorem box_strictly_ordered {anno : Anno} {image_dir : String → Option Image} {r : Record}
    (h : dict_to_tf_example anno image_dir = .ok r) :
    r.xmin < r.xmax ∧ r.ymin < r.ymax := by
  obtain ⟨_, _, _, _, _, _, _, _, _, _, _, _, _, _, hyy, hxx, _⟩ := dict_ok_inv h
  exact ⟨hxx, hyy⟩

/-- Witness for the amended C4 at the concrete annotation. -/
theorem box_strictly_ordered_witness :
    rec0.xmin < rec0.xmax ∧ rec0.ymin < rec0.ymax :=
  box_strictly_ordered (show dict_to_tf_example anno0 imgDir0 = .ok rec0 by decide)

/-- Claim C5: an annotation whose pixel box has `xmin ≥ xmax` is
rejected at the geometry assert (provided the run reaches it, i.e. the
earlier file/format/dimension checks pass), and an annotation whose
image file is absent from the directory is rejected at the read with
the I/O error — the two failures are distinguished. -/
theorem rejection_kinds :
    (∀ (anno : Anno) (image_dir : String → Option Image) (image : Image),
      (strEndsWith anno.filename ".jpg" || strEndsWith anno.filename ".jpeg") = true →
      image_dir anno.filename = some image →
      image.format = "JPEG" → image.mode = "RGB" →
      0 < anno.size.width → 0 < anno.size.height →
      image.width = anno.size.width → image.height = anno.size.height →
      anno.box.xmax ≤ anno.box.xmin →
      dict_to_tf_example anno image_dir = .error .geometryErr) ∧
    (∀ (anno : Anno) (image_dir : String → Option Image),
      (strEndsWith anno.filename ".jpg" || strEndsWith anno.filename ".jpeg") = true →
      image_dir anno.filename = none →
      dict_to_tf_example anno image_dir = .error .ioErr) := by
  constructor
  · intro anno image_dir image hext himg hfmt hmode hw hh hdw hdh hxx
    refine dict_bad_box hext himg hfmt hmode hw hh hdw hdh ?_
    simp only [normBox]
    rintro ⟨-, hlt⟩
    have hw' : (0 : ℚ) < (anno.size.width : ℚ) := by exact_mod_cast hw
    rw [div_lt_div_iff hw' hw'] at hlt
    nlinarith
  · intro anno image_dir hext himg
    exact dict_missing_image hext himg

/-- Witness for C5: the inverted box `annoInv` yields the geometry
error; the missing file `annoMiss` yields the I/O error. -/
theorem rejection_kinds_witness :
    dict_to_tf_example annoInv imgDir0 = .error .geometryErr ∧
    dict_to_tf_example annoMiss imgDir0 = .error .ioErr :=
  ⟨rejection_kinds.1 annoInv imgDir0 img0 (by decide) (by decide) (by decide) (by decide)
      (by decide) (by decide) (by decide) (by decide) (by decide),
   rejection_kinds.2 annoMiss imgDir0 (by decide) (by decide)⟩

/-- Claim C6: the run over `pre ++ a :: post` where every entry of
`pre` validates and `a` fails, ends as the failure of `a` — the
conclusion does not depend on `post`, so no later entry is processed
and no later record is written. -/
theorem fail_fast_policy {image_dir : String → Option Image}
    {pre : List Anno} {a : Anno} {post : List Anno} {err : Err} {num_shards : Nat}
    (hpre : ∀ b ∈ pre, ∃ r, dict_to_tf_example b image_dir = .ok r)
    (ha : dict_to_tf_example a image_dir = .error err) :
    runPipeline image_dir (pre ++ a :: post) num_shards = .error err := by
  unfold runPipeline
  exact writeAll_fail_fast hpre ha

/-- Witness for C6: a good entry, then an inverted box, then another
good entry; the run aborts with the geometry error. -/
theorem fail_fast_policy_witness :
    runPipeline imgDir0 ([anno0] ++ annoInv :: [anno0]) 2 = .error .geometryErr := by
  refine fail_fast_policy ?_ (by decide)
  intro b hb
  simp only [List.mem_singleton] at hb
  subst hb
  exact ⟨rec0, by decide⟩

set_option maxRecDepth 8000 in
/-- Claim C7 (counterexample): a successful run need not produce
`num_shards` files.  Six entries with four requested shards give
capacity `ceil(6/4) = 2` and therefore three shard files, not four. -/
theorem shard_count_cex :
    runPipeline imgDir0 entries6 4 = .ok shards6 ∧ shards6.length ≠ 4 := by
  constructor <;> decide

/-- Claim C7 (amended): a successful run over `N ≥ 1` entries with
`S ≥ 1` requested shards produces `ceil(N / ceil(N/S))` shard files —
at most `S`, and possibly fewer — named `shard-%04d.tfrecords` with
sequential indices starting at 0. -/
theorem shard_count {image_dir : String → Option Image} {entries : List Anno}
    {num_shards : Nat} {shards : List (String × List Record)}
    (hS : 1 ≤ num_shards) (hN : 1 ≤ entries.length)
    (h : runPipeline image_dir entries num_shards = .ok shards) :
    shards.length = shardCapacity entries.length (shardCapacity entries.length num_shards) ∧
    shards.length ≤ num_shards ∧
    shards.map Prod.fst = (List.range shards.length).map shardFileName := by
  have hcap := shardCapacity_pos hN hS
  unfold runPipeline at h
  have hlen := writeAll_length h hcap (by simpa using hcap)
  have hlen' : shards.length =
      shardCapacity entries.length (shardCapacity entries.length num_shards) := by
    rw [hlen]
    simp [shardCapacity]
  refine ⟨hlen', ?_, ?_⟩
  · rw [hlen']
    exact shardCapacity_self_le hN hS
  · obtain ⟨m, hm⟩ := writeAll_names h
    simp only [List.map_nil, List.nil_append] at hm
    have hlm : shards.length = m := by
      have := congrArg List.length hm
      simpa using this
    rw [hm, List.range_eq_range', hlm]

set_option maxRecDepth 8000 in
/-- Witness for the amended C7 at the N=6, S=4 run: three files named
shard-0000/0001/0002. -/
theorem shard_count_witness :
    (1 ≤ 4 ∧ 1 ≤ entries6.length ∧ runPipeline imgDir0 entries6 4 = .ok shards6) ∧
    (shards6.length = shardCapacity entries6.length (shardCapacity entries6.length 4) ∧
     shards6.length ≤ 4 ∧
     shards6.map Prod.fst = (List.range shards6.length).map shardFileName) := by
  have h : runPipeline imgDir0 entries6 4 = .ok shards6 := by decide
  exact ⟨⟨by decide, by decide, h⟩, shard_count (by decide) (by decide) h⟩

/-- Claim C8: opening the output is a destructive replace.  Whatever the
directory held before, the run's view of it after the reset is the same
as starting from an empty directory, and on success the final contents
are exactly the shard files of this run — no leftovers. -/
theorem destructive_reset (prev : List String) (image_dir : String → Option Image)
    (entries : List Anno) (num_shards : Nat) :
    runFull prev image_dir entries num_shards = runFull [] image_dir entries num_shards ∧
    runFull prev image_dir entries num_shards =
      Except.map (fun shards => shards.map Prod.fst)
        (runPipeline image_dir entries num_shards) :=
  ⟨rfl, rfl⟩

/-- Claim C9: the validator reads nothing but the image stored under the
annotation's filename: two image directories that agree on that one
file produce identical results (same record or same failure), so the
function is deterministic in the annotation and the image bytes. -/
theorem validator_deterministic (anno : Anno) (d₁ d₂ : String → Option Image)
    (hsame : d₁ anno.filename = d₂ anno.filename) :
    dict_to_tf_example anno d₁ = dict_to_tf_example anno d₂ := by
  unfold dict_to_tf_example
  rw [hsame]

/-- Witness for C9: two directories differing everywhere except at
`1.jpg` validate `anno0` identically. -/
theorem validator_deterministic_witness :
    imgDir0 anno0.filename = imgDirAlt anno0.filename ∧
    dict_to_tf_example anno0 imgDir0 = dict_to_tf_example anno0 imgDirAlt :=
  ⟨by decide, validator_deterministic anno0 imgDir0 imgDirAlt (by decide)⟩

/-- Claim C10: the landmark count is never checked.  Any annotation
passing the other checks whose `k` landmark pairs all lie inside the
box is accepted — whatever `k` is — and the record's flat landmark
sequence has `2 * k` entries. -/
theorem landmark_count_unchecked :
    ∀ (anno : Anno) (image_dir : String → Option Image) (image : Image),
      (strEndsWith anno.filename ".jpg" || strEndsWith anno.filename ".jpeg") = true →
      image_dir anno.filename = some image →
      image.format = "JPEG" → image.mode = "RGB" →
      0 < anno.size.width → 0 < anno.size.height →
      image.width = anno.size.width → image.height = anno.size.height →
      ((normBox anno).ymin < (normBox anno).ymax ∧ (normBox anno).xmin < (normBox anno).xmax) →
      (∀ p ∈ anno.landmarks,
        lmOk (anno.size.width : ℚ) (anno.size.height : ℚ)
          (normBox anno).ymin (normBox anno).ymax (normBox anno).xmin (normBox anno).xmax p) →
      Except.map (fun r => r.landmarks.length) (dict_to_tf_example anno image_dir) =
        .ok (2 * anno.landmarks.length) := by
  intro anno image_dir image hext himg hfmt hmode hw hh hdw hdh hbox hlm
  rw [dict_ok_of_checks hext himg hfmt hmode hw hh hdw hdh hbox hlm]
  simp [Except.map, lmFlat_length]

/-- Witness for C10: three landmark pairs are accepted and flattened to
six entries. -/
theorem landmark_count_unchecked_witness :
    anno3.landmarks.length = 3 ∧
    Except.map (fun r => r.landmarks.length) (dict_to_tf_example anno3 imgDir0) = .ok 6 := by
  constructor
  · decide
  · have := landmark_count_unchecked anno3 imgDir0 img0 (by decide) (by decide) (by decide)
      (by decide) (by decide) (by decide) (by decide) (by decide) (by decide) (by decide)
    simpa using this

end WingLoss
